import Mathlib

/-!
Verification development for the SATpwn plugin core (SATpwn.py).

The embedding covers: the activity tracker and motion classifier
(recent_activity, is_stationary, is_moving), auto sub-mode selection
(auto_mode_logic), the AP/client memory store with ingest
(on_unfiltered_ap_list) and TTL eviction (cleanup_memory), the
persistence round trip (save_memory / load_memory) and the epoch
handler (on_epoch).  Timestamps are modelled as integers, Python
dictionaries as association lists over string keys (dlookup / dupsert
mirror dict read and dict assignment).
-/

namespace SATpwn

/-! ### Constants from the class body of SATpwn -/

def AP_EXPIRY_SECONDS : Int := 3600 * 48
def CLIENT_EXPIRY_SECONDS : Int := 3600 * 24
def DRIVE_BY_AP_EXPIRY_SECONDS : Int := 1800
def DRIVE_BY_CLIENT_EXPIRY_SECONDS : Int := 900
def STATIONARY_SECONDS : Int := 3600
def ACTIVITY_THRESHOLD : Nat := 5
def ACTIVITY_WINDOW_SECONDS : Int := 300

-- self.modes = ['strict', 'loose', 'drive-by', 'recon', 'auto']
def modes : List String := ["strict", "loose", "drive-by", "recon", "auto"]

-- self.mode = self.modes[0]
def default_mode : String := modes.headD ""

/-! ### Data model -/

/-- A client record as created by on_unfiltered_ap_list (first_seen,
last_seen, packets). -/
structure ClientRecord where
  first_seen : Int
  last_seen : Int
  packets : Nat
deriving DecidableEq

/-- An AP record as created by on_unfiltered_ap_list.  The
attack_history list is never populated by the in-scope logic, so its
element type is irrelevant here. -/
structure APRecord where
  ssid : String
  first_seen : Int
  last_seen : Int
  rssi : Int
  channel : Int
  encryption : String
  clients : List (String × ClientRecord)
  attack_history : List Unit
  handshakes : Nat
  pmkid_attempts : Nat
  score : Int
deriving DecidableEq

/-- self.memory: a dict from AP mac to AP record, modelled as an
association list preserving insertion order. -/
abbrev Memory := List (String × APRecord)

/-! ### Dictionary operations (Python dict read and assignment) -/

/-- Dict read: first entry with the given key. -/
def dlookup {α : Type} : List (String × α) → String → Option α
  | [], _ => none
  | (k, v) :: rest, key => if k = key then some v else dlookup rest key

/-- Dict assignment d[key] = v: replace the first entry with that key in
place, or append when absent. -/
def dupsert {α : Type} : List (String × α) → String → α → List (String × α)
  | [], key, v => [(key, v)]
  | (k, w) :: rest, key, v =>
      if k = key then (key, v) :: rest else (k, w) :: dupsert rest key v

theorem dlookup_nil {α : Type} (key : String) :
    dlookup ([] : List (String × α)) key = none := rfl

theorem dlookup_dupsert_self {α : Type} (l : List (String × α)) (key : String) (v : α) :
    dlookup (dupsert l key v) key = some v := by
  induction l with
  | nil => simp [dupsert, dlookup]
  | cons p rest ih =>
      obtain ⟨k, w⟩ := p
      by_cases h : k = key
      · simp [dupsert, h, dlookup]
      · simp [dupsert, h, dlookup, ih]

theorem dlookup_dupsert_ne {α : Type} (l : List (String × α)) (key key' : String) (v : α)
    (h : key ≠ key') : dlookup (dupsert l key v) key' = dlookup l key' := by
  induction l with
  | nil => simp [dupsert, dlookup, h]
  | cons p rest ih =>
      obtain ⟨k, w⟩ := p
      by_cases hk : k = key
      · subst hk
        simp [dupsert, dlookup, h, ih]
      · simp [dupsert, hk, dlookup, ih]

theorem mem_of_dlookup {α : Type} {l : List (String × α)} {key : String} {v : α}
    (h : dlookup l key = some v) : (key, v) ∈ l := by
  induction l with
  | nil => simp [dlookup] at h
  | cons p rest ih =>
      obtain ⟨k, w⟩ := p
      by_cases hk : k = key
      · subst hk
        simp [dlookup] at h
        simp [h]
      · simp [dlookup, hk] at h
        exact List.mem_cons_of_mem _ (ih h)

theorem dlookup_eq_none_of_not_mem_keys {α : Type} {l : List (String × α)} {key : String}
    (h : key ∉ l.map Prod.fst) : dlookup l key = none := by
  induction l with
  | nil => rfl
  | cons p rest ih =>
      obtain ⟨k, w⟩ := p
      rw [List.map_cons] at h
      have h1 : k ≠ key := fun hk => h (by simp [hk])
      have h2 : key ∉ rest.map Prod.fst := fun hm => h (List.mem_cons_of_mem _ hm)
      simp [dlookup, h1, ih h2]

/-! ### Activity tracker and motion classifier -/

/-- The windowed activity sum computed identically in _is_stationary and
_is_moving: sum of counts of samples with now - t <= window. -/
def recent_activity (hist : List (Int × Nat)) (now : Int) : Nat :=
  ((hist.filter fun p => decide (now - p.1 ≤ ACTIVITY_WINDOW_SECONDS)).map Prod.snd).sum

/-- _is_stationary: returns the boolean result together with the updated
_stationary_start field (the method mutates it). -/
def is_stationary (hist : List (Int × Nat)) (stationary_start : Option Int) (now : Int) :
    Bool × Option Int :=
  if recent_activity hist now < ACTIVITY_THRESHOLD then
    let start := stationary_start.getD now
    (decide (STATIONARY_SECONDS ≤ now - start), some start)
  else
    (false, none)

/-- _is_moving. -/
def is_moving (hist : List (Int × Nat)) (now : Int) : Bool :=
  decide (ACTIVITY_THRESHOLD ≤ recent_activity hist now)

/-- Claim C6: the stationary hysteresis per evaluation: the
stationary-start timestamp is set the first time windowed activity is
below the threshold and kept on later low-activity evaluations; it is
cleared on any evaluation where windowed activity reaches the threshold,
which also returns false; the result is true exactly when a
stationary-start is recorded and at least STATIONARY_SECONDS have
elapsed since it; and the result is false whenever stationary-start was
unset on entry. -/
theorem stationary_hysteresis (hist : List (Int × Nat)) (start : Option Int) (now : Int) :
    (recent_activity hist now < ACTIVITY_THRESHOLD → start = none →
      (is_stationary hist start now).2 = some now) ∧
    (∀ s, recent_activity hist now < ACTIVITY_THRESHOLD → start = some s →
      (is_stationary hist start now).2 = some s) ∧
    (ACTIVITY_THRESHOLD ≤ recent_activity hist now →
      (is_stationary hist start now).2 = none ∧ (is_stationary hist start now).1 = false) ∧
    ((is_stationary hist start now).1 = true ↔
      ∃ s, (is_stationary hist start now).2 = some s ∧ STATIONARY_SECONDS ≤ now - s) ∧
    (start = none → (is_stationary hist start now).1 = false) := by
  refine ⟨?_, ?_, ?_, ?_, ?_⟩
  · intro h hn
    subst hn
    simp [is_stationary, h]
  · intro s h hs
    subst hs
    simp [is_stationary, h]
  · intro hge
    have h : ¬ recent_activity hist now < ACTIVITY_THRESHOLD := Nat.not_lt.mpr hge
    simp [is_stationary, h]
  · by_cases h : recent_activity hist now < ACTIVITY_THRESHOLD
    · cases start with
      | none => simp [is_stationary, h, STATIONARY_SECONDS]
      | some s0 => simp [is_stationary, h]
    · simp [is_stationary, h]
  · intro hn
    subst hn
    by_cases h : recent_activity hist now < ACTIVITY_THRESHOLD
    · simp [is_stationary, h, STATIONARY_SECONDS]
    · simp [is_stationary, h]

/-- Claim C6 witness: a concrete evaluation with an empty history at
time 0 and no prior stationary-start records start = 0 and returns
false. -/
theorem stationary_hysteresis_witness :
    (recent_activity [] 0 < ACTIVITY_THRESHOLD ∧ (([] : List (Int × Nat)) = [])) ∧
    (is_stationary [] none 0).2 = some 0 ∧ (is_stationary [] none 0).1 = false :=
  ⟨⟨by decide, rfl⟩, (stationary_hysteresis [] none 0).1 (by decide) rfl,
    (stationary_hysteresis [] none 0).2.2.2.2 rfl⟩

/-- Claim C10: is_moving and is_stationary are computed from the same
windowed activity sum with complementary threshold comparisons, so they
can never both be true, whatever the hysteresis timer holds. -/
theorem moving_stationary_exclusive (hist : List (Int × Nat)) (start : Option Int) (now : Int) :
    (is_moving hist now && (is_stationary hist start now).1) = false := by
  by_cases h : recent_activity hist now < ACTIVITY_THRESHOLD
  · have hm : is_moving hist now = false := by
      simp [is_moving]
      omega
    simp [hm]
  · simp [is_stationary, h]

/-! ### Auto mode selection -/

/-- _auto_mode_logic: the three booleans are the results of the calls to
_home_ssid_visible, _is_stationary and _is_moving; the memory size is
len(self.memory). -/
def auto_mode_logic (home_ssid_visible is_stationary_res is_moving_res : Bool)
    (memory : Memory) : String :=
  if home_ssid_visible || is_stationary_res then "recon"
  else if is_moving_res then "drive-by"
  else if memory.length < 10 then "loose" else "strict"

/-- Claim C5: auto sub-mode selection follows strict priority: home or
stationary gives recon even when moving is simultaneously true;
otherwise moving gives drive-by; otherwise the store size decides
between loose (fewer than 10 APs) and strict (10 or more). -/
theorem auto_mode_priority (h s m : Bool) (mem : Memory) :
    ((h = true ∨ s = true) → auto_mode_logic h s m mem = "recon") ∧
    (h = false → s = false → m = true → auto_mode_logic h s m mem = "drive-by") ∧
    (h = false → s = false → m = false → mem.length < 10 →
      auto_mode_logic h s m mem = "loose") ∧
    (h = false → s = false → m = false → 10 ≤ mem.length →
      auto_mode_logic h s m mem = "strict") := by
  refine ⟨?_, ?_, ?_, ?_⟩
  · rintro (hh | hs)
    · subst hh
      simp [auto_mode_logic]
    · subst hs
      simp [auto_mode_logic]
  · rintro rfl rfl rfl
    simp [auto_mode_logic]
  · rintro rfl rfl rfl hlen
    simp [auto_mode_logic, hlen]
  · rintro rfl rfl rfl hlen
    simp [auto_mode_logic, Nat.not_lt.mpr hlen]

/-- Claim C5 witness: concrete evaluations covering all four branches,
including recon winning over moving. -/
theorem auto_mode_priority_witness :
    auto_mode_logic true false true [] = "recon" ∧
    auto_mode_logic false true true [] = "recon" ∧
    auto_mode_logic false false true [] = "drive-by" ∧
    auto_mode_logic false false false [] = "loose" :=
  ⟨(auto_mode_priority true false true []).1 (Or.inl rfl),
    (auto_mode_priority false true true []).1 (Or.inr rfl),
    (auto_mode_priority false false true []).2.1 rfl rfl rfl,
    (auto_mode_priority false false false []).2.2.1 rfl rfl rfl (by decide)⟩

/-! ### Eviction sweep -/

-- ap_expiry = self.DRIVE_BY_AP_EXPIRY_SECONDS if self.mode == 'drive-by'
--             else self.AP_EXPIRY_SECONDS
def ap_expiry (mode : String) : Int :=
  if mode = "drive-by" then DRIVE_BY_AP_EXPIRY_SECONDS else AP_EXPIRY_SECONDS

def client_expiry (mode : String) : Int :=
  if mode = "drive-by" then DRIVE_BY_CLIENT_EXPIRY_SECONDS else CLIENT_EXPIRY_SECONDS

/-- The sweep of _cleanup_memory for given TTL values: drop every AP
with now - last_seen > apExp, then drop every client with
now - last_seen > clExp from each surviving AP. -/
def cleanup_with (mem : Memory) (apExp clExp now : Int) : Memory :=
  (mem.filter fun p => decide (now - p.2.last_seen ≤ apExp)).map
    fun p => (p.1, { p.2 with clients := p.2.clients.filter (fun c => decide (now - c.2.last_seen ≤ clExp)) })

/-- _cleanup_memory: the sweep with the TTLs selected from the top-level
mode string.  The derived auto sub-mode is not an input because the
source reads only self.mode. -/
def cleanup_memory (mem : Memory) (mode : String) (now : Int) : Memory :=
  cleanup_with mem (ap_expiry mode) (client_expiry mode) now

/-- Claim C2: the sweep uses the short TTL pair 1800/900 exactly when
the top-level mode string equals drive-by, and the long default pair
172800/86400 in every other mode, auto included (whatever sub-mode auto
may have derived, which the sweep never consults). -/
theorem ttl_mode_selection (mem : Memory) (now : Int) (mode : String) :
    (mode = "drive-by" →
      cleanup_memory mem mode now =
        cleanup_with mem DRIVE_BY_AP_EXPIRY_SECONDS DRIVE_BY_CLIENT_EXPIRY_SECONDS now) ∧
    (mode ≠ "drive-by" →
      cleanup_memory mem mode now =
        cleanup_with mem AP_EXPIRY_SECONDS CLIENT_EXPIRY_SECONDS now) ∧
    cleanup_memory mem "auto" now = cleanup_with mem 172800 86400 now ∧
    DRIVE_BY_AP_EXPIRY_SECONDS = 1800 ∧ DRIVE_BY_CLIENT_EXPIRY_SECONDS = 900 ∧
    AP_EXPIRY_SECONDS = 172800 ∧ CLIENT_EXPIRY_SECONDS = 86400 := by
  refine ⟨?_, ?_, ?_, by decide, by decide, by decide, by decide⟩
  · rintro rfl
    simp [cleanup_memory, ap_expiry, client_expiry]
  · intro hne
    simp [cleanup_memory, ap_expiry, client_expiry, hne]
  · have h172800 : AP_EXPIRY_SECONDS = 172800 := by decide
    have h86400 : CLIENT_EXPIRY_SECONDS = 86400 := by decide
    simp [cleanup_memory, ap_expiry, client_expiry, h172800, h86400]

/-- Claim C2 witness: the two TTL selections at concrete modes. -/
theorem ttl_mode_selection_witness :
    cleanup_memory [] "drive-by" 0 =
      cleanup_with [] DRIVE_BY_AP_EXPIRY_SECONDS DRIVE_BY_CLIENT_EXPIRY_SECONDS 0 ∧
    cleanup_memory [] "auto" 0 = cleanup_with [] 172800 86400 0 :=
  ⟨(ttl_mode_selection [] 0 "drive-by").1 rfl, (ttl_mode_selection [] 0 "auto").2.2.1⟩

theorem mem_cleanup_with {mem : Memory} {apExp clExp now : Int} {k : String} {ap : APRecord}
    (h : (k, ap) ∈ cleanup_with mem apExp clExp now) :
    ∃ ap1, (k, ap1) ∈ mem ∧ now - ap1.last_seen ≤ apExp ∧
      ap = { ap1 with clients :=
        ap1.clients.filter (fun c => decide (now - c.2.last_seen ≤ clExp)) } := by
  rw [cleanup_with] at h
  obtain ⟨p, hp, hpe⟩ := List.mem_map.mp h
  obtain ⟨hin, hkeep⟩ := List.mem_filter.mp hp
  refine ⟨p.2, ?_, of_decide_eq_true hkeep, ?_⟩
  · have hk : p.1 = k := congrArg Prod.fst hpe
    rw [← hk]
    exact hin
  · exact (congrArg Prod.snd hpe).symm

theorem keys_cleanup_with_sub {mem : Memory} {apExp clExp now : Int} {k : String}
    (h : k ∈ (cleanup_with mem apExp clExp now).map Prod.fst) : k ∈ mem.map Prod.fst := by
  rw [cleanup_with, List.map_map] at h
  obtain ⟨p, hp, hpe⟩ := List.mem_map.mp h
  exact List.mem_map.mpr ⟨p, (List.mem_filter.mp hp).1, hpe⟩

/-- Claim C4: after a sweep no surviving AP is older than the AP TTL for
the current mode and no surviving client of a surviving AP is older than
the client TTL; and, when keys are unique as in a Python dict, an AP
whose age exceeds the AP TTL is removed entirely, so none of its clients
survive anywhere. -/
theorem cleanup_eviction_safety (mem : Memory) (mode : String) (now : Int) :
    (∀ k ap, dlookup (cleanup_memory mem mode now) k = some ap →
      now - ap.last_seen ≤ ap_expiry mode ∧
      ∀ c cr, dlookup ap.clients c = some cr → now - cr.last_seen ≤ client_expiry mode) ∧
    ((mem.map Prod.fst).Nodup → ∀ k ap, dlookup mem k = some ap →
      ap_expiry mode < now - ap.last_seen →
      dlookup (cleanup_memory mem mode now) k = none) := by
  constructor
  · intro k ap h
    obtain ⟨ap1, hin, hage, hap⟩ := mem_cleanup_with (mem_of_dlookup h)
    subst hap
    refine ⟨by simpa using hage, ?_⟩
    intro c cr hc
    have hcmem : (c, cr) ∈ ap1.clients.filter
        (fun c2 => decide (now - c2.2.last_seen ≤ client_expiry mode)) := mem_of_dlookup hc
    exact of_decide_eq_true (List.mem_filter.mp hcmem).2
  · intro hnodup k ap h hexp
    induction mem with
    | nil => simp [dlookup] at h
    | cons p rest ih =>
        obtain ⟨k0, ap0⟩ := p
        rw [List.map_cons, List.nodup_cons] at hnodup
        rw [dlookup] at h
        by_cases hk : k0 = k
        · rw [if_pos hk] at h
          obtain rfl : ap0 = ap := Option.some.inj h
          subst hk
          have hdrop : (decide (now - ap0.last_seen ≤ ap_expiry mode)) = false := by
            simp
            omega
          rw [cleanup_memory, cleanup_with, List.filter_cons, hdrop]
          simp only [Bool.false_eq_true, if_false]
          apply dlookup_eq_none_of_not_mem_keys
          intro hmem2
          exact hnodup.1 (keys_cleanup_with_sub hmem2)
        · rw [if_neg hk] at h
          have hrest := ih hnodup.2 h
          rw [cleanup_memory] at hrest
          rw [cleanup_memory, cleanup_with, List.filter_cons]
          rw [cleanup_with] at hrest
          split
          · rw [List.map_cons, dlookup, if_neg hk]
            exact hrest
          · exact hrest

/-- A sample client record for concrete evaluations. -/
def sample_client : ClientRecord := { first_seen := 0, last_seen := 0, packets := 0 }

/-- A sample AP record last seen at time 0, with one client. -/
def sample_ap : APRecord :=
  { ssid := "net", first_seen := 0, last_seen := 0, rssi := -40, channel := 6,
    encryption := "WPA2", clients := [("cc", sample_client)], attack_history := [],
    handshakes := 0, pmkid_attempts := 0, score := 0 }

/-- Claim C4 witness: in drive-by mode an AP aged 1900s (over the 1800s
TTL) is evicted together with its client. -/
theorem cleanup_eviction_safety_witness :
    (([("aa", sample_ap)] : Memory).map Prod.fst).Nodup ∧
    dlookup [("aa", sample_ap)] "aa" = some sample_ap ∧
    ap_expiry "drive-by" < 1900 - sample_ap.last_seen ∧
    dlookup (cleanup_memory [("aa", sample_ap)] "drive-by" 1900) "aa" = none :=
  ⟨by decide, by decide, by decide,
    (cleanup_eviction_safety [("aa", sample_ap)] "drive-by" 1900).2 (by decide)
      "aa" sample_ap (by decide) (by decide)⟩

/-! ### Epoch handler and dirty flag -/

/-- The state read and written by on_epoch. -/
structure EpochState where
  ready : Bool
  memory : Memory
  mode : String
  memory_is_dirty : Bool
deriving DecidableEq

/-- on_epoch: every 10th epoch runs the cleanup sweep (which sets the
dirty flag), and every 5th epoch with the dirty flag set calls
_save_memory and then sets the flag to False.  _save_memory catches
every exception internally, so whether the write succeeds (save_ok,
supplied by the environment) cannot influence the resulting state; the
second component reports whether a save was attempted. -/
def on_epoch (st : EpochState) (epoch : Nat) (now : Int) (save_ok : Bool) :
    EpochState × Bool :=
  if st.ready = false then (st, false)
  else
    let st1 := if epoch % 10 = 0 then
        { st with memory := cleanup_memory st.memory st.mode now, memory_is_dirty := true }
      else st
    if st1.memory_is_dirty = true ∧ epoch % 5 = 0 then
      ({ st1 with memory_is_dirty := false }, true)
    else (st1, false)

/-- A dirty state about to hit a save epoch. -/
def dirty_epoch_state : EpochState :=
  { ready := true, memory := [], mode := "strict", memory_is_dirty := true }

/-- Claim C1 (violated by the code): at epoch 5 with the dirty flag set,
a save is attempted, and even when the write fails (save_ok = false) the
dirty flag ends up cleared; the outcome is identical to a successful
save, so the next cycle does not retry. -/
theorem dirty_cleared_even_on_failed_save :
    (on_epoch dirty_epoch_state 5 1000 false).2 = true ∧
    (on_epoch dirty_epoch_state 5 1000 false).1.memory_is_dirty = false ∧
    on_epoch dirty_epoch_state 5 1000 false = on_epoch dirty_epoch_state 5 1000 true := by
  refine ⟨rfl, rfl, rfl⟩

/-! ### Ingest (on_unfiltered_ap_list) -/

/-- Python str.lower applied to identifiers, modelled on the character
list (observed identifiers are ASCII mac addresses and names). -/
def lower (s : String) : String := ⟨s.data.map Char.toLower⟩

/-- A client observation: only the mac field is read. -/
structure ClientObs where
  mac : String
deriving DecidableEq

/-- An AP observation as read from the scan data. -/
structure APObs where
  mac : String
  hostname : String
  rssi : Int
  channel : Int
  encryption : String
  clients : List ClientObs
deriving DecidableEq

/-- The record created for a newly seen AP. -/
def new_ap_record (ssid : String) (now : Int) (rssi channel : Int)
    (encryption : String) : APRecord :=
  { ssid := ssid, first_seen := now, last_seen := now, rssi := rssi, channel := channel,
    encryption := encryption, clients := [], attack_history := [], handshakes := 0,
    pmkid_attempts := 0, score := 0 }

/-- Processing of one client observation against the parent AP's client
dict; the boolean reports whether the store was marked dirty (a new
client record was created). -/
def process_client (cls : List (String × ClientRecord)) (now : Int) (c : ClientObs) :
    List (String × ClientRecord) × Bool :=
  let client_mac := (lower c.mac)
  if client_mac = "" then (cls, false)
  else
    match dlookup cls client_mac with
    | none => (dupsert cls client_mac { first_seen := now, last_seen := now, packets := 0 }, true)
    | some cr => (dupsert cls client_mac { cr with last_seen := now }, false)

/-- Fold of process_client over the observation's client list. -/
def process_clients (cls : List (String × ClientRecord)) (now : Int) :
    List ClientObs → List (String × ClientRecord) × Bool
  | [] => (cls, false)
  | c :: rest =>
      let r1 := process_client cls now c
      let r2 := process_clients r1.1 now rest
      (r2.1, r1.2 || r2.2)

/-- Processing of one AP observation: create or update the AP record,
then fold over its client observations.  Returns the new memory, the
dirty contribution and the number of newly created APs (0 or 1). -/
def process_ap_obs (mem : Memory) (now : Int) (obs : APObs) : Memory × Bool × Nat :=
  let ap_mac := (lower obs.mac)
  if ap_mac = "" then (mem, false, 0)
  else
    match dlookup mem ap_mac with
    | none =>
        let ap0 := new_ap_record obs.hostname now obs.rssi obs.channel obs.encryption
        let r := process_clients ap0.clients now obs.clients
        (dupsert mem ap_mac { ap0 with clients := r.1 }, true, 1)
    | some ap =>
        let ap1 := { ap with last_seen := now, rssi := obs.rssi,
                             ssid := if obs.hostname = "" then ap.ssid else obs.hostname }
        let r := process_clients ap1.clients now obs.clients
        (dupsert mem ap_mac { ap1 with clients := r.1 }, r.2, 0)

/-- The scan-handler core of on_unfiltered_ap_list: fold over the
observation batch, accumulating the dirty contribution and the count of
newly discovered APs (which is reported to the activity tracker). -/
def on_unfiltered_ap_list (mem : Memory) (now : Int) :
    List APObs → Memory × Bool × Nat
  | [] => (mem, false, 0)
  | a :: rest =>
      let r1 := process_ap_obs mem now a
      let r2 := on_unfiltered_ap_list r1.1 now rest
      (r2.1, r1.2.1 || r2.2.1, r1.2.2 + r2.2.2)

/-- Claim C7: for a single observation within a batch: an empty
identifier is skipped leaving everything unchanged; a first occurrence
creates a record with first_seen = last_seen = now and marks the store
dirty; a later occurrence updates last_seen and rssi unconditionally but
takes the incoming ssid only when it is non-empty, and never changes
first_seen. -/
theorem ingest_observation_cases (mem : Memory) (now : Int) (obs : APObs) :
    ((lower obs.mac) = "" → process_ap_obs mem now obs = (mem, false, 0)) ∧
    ((lower obs.mac) ≠ "" → dlookup mem (lower obs.mac) = none →
      (∃ ap, dlookup (process_ap_obs mem now obs).1 (lower obs.mac) = some ap ∧
        ap.first_seen = now ∧ ap.last_seen = now ∧ ap.ssid = obs.hostname) ∧
      (process_ap_obs mem now obs).2.1 = true) ∧
    (∀ ap, (lower obs.mac) ≠ "" → dlookup mem (lower obs.mac) = some ap →
      ∃ ap', dlookup (process_ap_obs mem now obs).1 (lower obs.mac) = some ap' ∧
        ap'.last_seen = now ∧ ap'.rssi = obs.rssi ∧
        ap'.ssid = (if obs.hostname = "" then ap.ssid else obs.hostname) ∧
        ap'.first_seen = ap.first_seen) := by
  refine ⟨?_, ?_, ?_⟩
  · intro he
    simp [process_ap_obs, he]
  · intro he hnone
    rw [process_ap_obs]
    simp only [he, if_false, hnone]
    refine ⟨⟨_, dlookup_dupsert_self .., rfl, rfl, rfl⟩, trivial⟩
  · intro ap he hsome
    rw [process_ap_obs]
    simp only [he, if_false, hsome]
    exact ⟨_, dlookup_dupsert_self .., rfl, rfl, rfl, rfl⟩

/-- An observation of the sample AP with an empty hostname, for
concrete evaluations. -/
def obs_touch : APObs :=
  { mac := "aa", hostname := "", rssi := -30, channel := 6, encryption := "WPA2", clients := [] }

/-- Claim C7 witness: ingesting the observation of a known AP with an
empty hostname keeps the stored ssid and first_seen while touching
last_seen and rssi. -/
theorem ingest_observation_cases_witness :
    ((lower obs_touch.mac) ≠ "" ∧
      dlookup [("aa", sample_ap)] (lower obs_touch.mac) = some sample_ap) ∧
    (∃ ap', dlookup (process_ap_obs [("aa", sample_ap)] 50 obs_touch).1
        (lower obs_touch.mac) = some ap' ∧
      ap'.last_seen = 50 ∧ ap'.rssi = obs_touch.rssi ∧
      ap'.ssid = (if obs_touch.hostname = "" then sample_ap.ssid else obs_touch.hostname) ∧
      ap'.first_seen = sample_ap.first_seen) :=
  ⟨⟨by decide, by decide⟩,
    (ingest_observation_cases [("aa", sample_ap)] 50 obs_touch).2.2 sample_ap
      (by decide) (by decide)⟩

/-! ### Monotonicity of seen timestamps across ingests -/

/-- Every client record has first_seen <= last_seen <= t. -/
def clients_le (cls : List (String × ClientRecord)) (t : Int) : Prop :=
  ∀ c cr, dlookup cls c = some cr → cr.first_seen ≤ cr.last_seen ∧ cr.last_seen ≤ t

/-- Every AP record (and its clients) has first_seen <= last_seen <= t. -/
def mem_le (mem : Memory) (t : Int) : Prop :=
  ∀ k ap, dlookup mem k = some ap →
    ap.first_seen ≤ ap.last_seen ∧ ap.last_seen ≤ t ∧ clients_le ap.clients t

/-- Every client record survives with unchanged first_seen and
non-decreased last_seen. -/
def clients_extends (cls cls' : List (String × ClientRecord)) : Prop :=
  ∀ c cr, dlookup cls c = some cr → ∃ cr', dlookup cls' c = some cr' ∧
    cr.last_seen ≤ cr'.last_seen ∧ cr'.first_seen = cr.first_seen

/-- Every AP record survives with unchanged first_seen, non-decreased
last_seen, and its clients extended likewise. -/
def mem_extends (mem mem' : Memory) : Prop :=
  ∀ k ap, dlookup mem k = some ap → ∃ ap', dlookup mem' k = some ap' ∧
    ap.last_seen ≤ ap'.last_seen ∧ ap'.first_seen = ap.first_seen ∧
    clients_extends ap.clients ap'.clients

theorem clients_le_mono {cls : List (String × ClientRecord)} {t t' : Int}
    (h : clients_le cls t) (hle : t ≤ t') : clients_le cls t' := by
  intro c cr hc
  obtain ⟨h1, h2⟩ := h c cr hc
  exact ⟨h1, le_trans h2 hle⟩

theorem mem_le_mono {mem : Memory} {t t' : Int}
    (h : mem_le mem t) (hle : t ≤ t') : mem_le mem t' := by
  intro k ap hk
  obtain ⟨h1, h2, h3⟩ := h k ap hk
  exact ⟨h1, le_trans h2 hle, clients_le_mono h3 hle⟩

theorem clients_extends_refl (cls : List (String × ClientRecord)) :
    clients_extends cls cls := by
  intro c cr hc
  exact ⟨cr, hc, le_refl _, rfl⟩

theorem clients_extends_trans {a b c : List (String × ClientRecord)}
    (h1 : clients_extends a b) (h2 : clients_extends b c) : clients_extends a c := by
  intro k cr hk
  obtain ⟨cr1, hb, hle1, hf1⟩ := h1 k cr hk
  obtain ⟨cr2, hc, hle2, hf2⟩ := h2 k cr1 hb
  exact ⟨cr2, hc, le_trans hle1 hle2, hf2.trans hf1⟩

theorem mem_extends_refl (mem : Memory) : mem_extends mem mem := by
  intro k ap hk
  exact ⟨ap, hk, le_refl _, rfl, clients_extends_refl _⟩

theorem mem_extends_trans {a b c : Memory}
    (h1 : mem_extends a b) (h2 : mem_extends b c) : mem_extends a c := by
  intro k ap hk
  obtain ⟨ap1, hb, hle1, hf1, hc1⟩ := h1 k ap hk
  obtain ⟨ap2, hc, hle2, hf2, hc2⟩ := h2 k ap1 hb
  exact ⟨ap2, hc, le_trans hle1 hle2, hf2.trans hf1, clients_extends_trans hc1 hc2⟩

theorem process_client_le {cls : List (String × ClientRecord)} {t now : Int} {c : ClientObs}
    (h : clients_le cls t) (hle : t ≤ now) :
    clients_le (process_client cls now c).1 now := by
  rw [process_client]
  by_cases he : (lower c.mac) = ""
  · rw [if_pos he]
    exact clients_le_mono h hle
  · rw [if_neg he]
    cases hl : dlookup cls (lower c.mac) with
    | none =>
        intro c2 cr2 hc2
        by_cases hk : (lower c.mac) = c2
        · subst hk
          rw [dlookup_dupsert_self] at hc2
          obtain rfl := Option.some.inj hc2
          exact ⟨le_refl _, le_refl _⟩
        · rw [dlookup_dupsert_ne _ _ _ _ hk] at hc2
          obtain ⟨h1, h2⟩ := h c2 cr2 hc2
          exact ⟨h1, le_trans h2 hle⟩
    | some cr =>
        intro c2 cr2 hc2
        by_cases hk : (lower c.mac) = c2
        · subst hk
          rw [dlookup_dupsert_self] at hc2
          obtain rfl := Option.some.inj hc2
          obtain ⟨h1, h2⟩ := h _ cr hl
          exact ⟨le_trans h1 (le_trans h2 hle), le_refl _⟩
        · rw [dlookup_dupsert_ne _ _ _ _ hk] at hc2
          obtain ⟨h1, h2⟩ := h c2 cr2 hc2
          exact ⟨h1, le_trans h2 hle⟩

theorem process_client_extends {cls : List (String × ClientRecord)} {t now : Int} {c : ClientObs}
    (h : clients_le cls t) (hle : t ≤ now) :
    clients_extends cls (process_client cls now c).1 := by
  rw [process_client]
  by_cases he : (lower c.mac) = ""
  · rw [if_pos he]
    exact clients_extends_refl _
  · rw [if_neg he]
    cases hl : dlookup cls (lower c.mac) with
    | none =>
        intro c2 cr2 hc2
        have hk : (lower c.mac) ≠ c2 := fun hkeq => by
          rw [hkeq, hc2] at hl
          cases hl
        rw [← dlookup_dupsert_ne cls _ c2
          ({ first_seen := now, last_seen := now, packets := 0 } : ClientRecord) hk] at hc2
        exact ⟨cr2, hc2, le_refl _, rfl⟩
    | some cr =>
        intro c2 cr2 hc2
        by_cases hk : (lower c.mac) = c2
        · subst hk
          rw [hl] at hc2
          obtain rfl := Option.some.inj hc2
          refine ⟨{ cr with last_seen := now }, dlookup_dupsert_self .., ?_, rfl⟩
          obtain ⟨h1, h2⟩ := h _ cr hl
          exact le_trans h2 hle
        · rw [← dlookup_dupsert_ne cls _ c2 ({ cr with last_seen := now } : ClientRecord) hk] at hc2
          exact ⟨cr2, hc2, le_refl _, rfl⟩

theorem process_clients_le {now : Int} (obs : List ClientObs) :
    ∀ (cls : List (String × ClientRecord)) (t : Int), clients_le cls t → t ≤ now →
      clients_le (process_clients cls now obs).1 now := by
  induction obs with
  | nil =>
      intro cls t h hle
      exact clients_le_mono h hle
  | cons c rest ih =>
      intro cls t h hle
      exact ih _ now (process_client_le h hle) (le_refl now)

theorem process_clients_extends {now : Int} (obs : List ClientObs) :
    ∀ (cls : List (String × ClientRecord)) (t : Int), clients_le cls t → t ≤ now →
      clients_extends cls (process_clients cls now obs).1 := by
  induction obs with
  | nil =>
      intro cls t h hle
      exact clients_extends_refl _
  | cons c rest ih =>
      intro cls t h hle
      exact clients_extends_trans (process_client_extends h hle)
        (ih _ now (process_client_le h hle) (le_refl now))

theorem process_ap_obs_eq_skip {mem : Memory} {now : Int} {obs : APObs}
    (he : (lower obs.mac) = "") : process_ap_obs mem now obs = (mem, false, 0) := by
  simp [process_ap_obs, he]

theorem process_ap_obs_eq_create {mem : Memory} {now : Int} {obs : APObs}
    (he : (lower obs.mac) ≠ "") (hl : dlookup mem (lower obs.mac) = none) :
    process_ap_obs mem now obs = (dupsert mem (lower obs.mac)
      { new_ap_record obs.hostname now obs.rssi obs.channel obs.encryption with
          clients := (process_clients
            (new_ap_record obs.hostname now obs.rssi obs.channel obs.encryption).clients
            now obs.clients).1 }, true, 1) := by
  rw [process_ap_obs]
  simp only [he, if_false, hl]

theorem process_ap_obs_eq_update {mem : Memory} {now : Int} {obs : APObs} {ap : APRecord}
    (he : (lower obs.mac) ≠ "") (hl : dlookup mem (lower obs.mac) = some ap) :
    process_ap_obs mem now obs = (dupsert mem (lower obs.mac)
      { ap with last_seen := now, rssi := obs.rssi,
                ssid := if obs.hostname = "" then ap.ssid else obs.hostname,
                clients := (process_clients ap.clients now obs.clients).1 },
      (process_clients ap.clients now obs.clients).2, 0) := by
  rw [process_ap_obs]
  simp only [he, if_false, hl]

theorem process_ap_obs_le {mem : Memory} {t now : Int} {obs : APObs}
    (h : mem_le mem t) (hle : t ≤ now) :
    mem_le (process_ap_obs mem now obs).1 now := by
  by_cases he : (lower obs.mac) = ""
  · rw [process_ap_obs_eq_skip he]
    exact mem_le_mono h hle
  · cases hl : dlookup mem (lower obs.mac) with
    | none =>
        rw [process_ap_obs_eq_create he hl]
        intro k ap hk
        by_cases hkey : (lower obs.mac) = k
        · subst hkey
          rw [dlookup_dupsert_self] at hk
          obtain rfl := Option.some.inj hk
          refine ⟨le_refl _, le_refl _, ?_⟩
          exact process_clients_le obs.clients _ now
            (fun c cr hc => by simp [new_ap_record, dlookup] at hc) (le_refl now)
        · rw [dlookup_dupsert_ne _ _ _ _ hkey] at hk
          obtain ⟨h1, h2, h3⟩ := h k ap hk
          exact ⟨h1, le_trans h2 hle, clients_le_mono h3 hle⟩
    | some ap0 =>
        rw [process_ap_obs_eq_update he hl]
        intro k ap hk
        by_cases hkey : (lower obs.mac) = k
        · subst hkey
          rw [dlookup_dupsert_self] at hk
          obtain rfl := Option.some.inj hk
          obtain ⟨h1, h2, h3⟩ := h _ ap0 hl
          refine ⟨le_trans h1 (le_trans h2 hle), le_refl _, ?_⟩
          exact process_clients_le obs.clients _ t h3 hle
        · rw [dlookup_dupsert_ne _ _ _ _ hkey] at hk
          obtain ⟨h1, h2, h3⟩ := h k ap hk
          exact ⟨h1, le_trans h2 hle, clients_le_mono h3 hle⟩

theorem process_ap_obs_extends {mem : Memory} {t now : Int} {obs : APObs}
    (h : mem_le mem t) (hle : t ≤ now) :
    mem_extends mem (process_ap_obs mem now obs).1 := by
  by_cases he : (lower obs.mac) = ""
  · rw [process_ap_obs_eq_skip he]
    exact mem_extends_refl mem
  · cases hl : dlookup mem (lower obs.mac) with
    | none =>
        rw [process_ap_obs_eq_create he hl]
        intro k ap hk
        have hkey : (lower obs.mac) ≠ k := fun hkeq => by
          rw [hkeq, hk] at hl
          cases hl
        exact ⟨ap, (dlookup_dupsert_ne mem _ k _ hkey).trans hk, le_refl _, rfl,
          clients_extends_refl _⟩
    | some ap0 =>
        rw [process_ap_obs_eq_update he hl]
        intro k ap hk
        by_cases hkey : (lower obs.mac) = k
        · subst hkey
          have hap : ap = ap0 := by
            rw [hl] at hk
            exact (Option.some.inj hk).symm
          subst hap
          obtain ⟨h1, h2, h3⟩ := h _ ap hl
          refine ⟨_, dlookup_dupsert_self .., le_trans h2 hle, rfl, ?_⟩
          exact process_clients_extends obs.clients _ t h3 hle
        · exact ⟨ap, (dlookup_dupsert_ne mem _ k _ hkey).trans hk, le_refl _, rfl,
            clients_extends_refl _⟩

theorem on_unfiltered_ap_list_le {now : Int} (aps : List APObs) :
    ∀ (mem : Memory) (t : Int), mem_le mem t → t ≤ now →
      mem_le (on_unfiltered_ap_list mem now aps).1 now := by
  induction aps with
  | nil =>
      intro mem t h hle
      exact mem_le_mono h hle
  | cons a rest ih =>
      intro mem t h hle
      exact ih _ now (process_ap_obs_le h hle) (le_refl now)

theorem on_unfiltered_ap_list_extends {now : Int} (aps : List APObs) :
    ∀ (mem : Memory) (t : Int), mem_le mem t → t ≤ now →
      mem_extends mem (on_unfiltered_ap_list mem now aps).1 := by
  induction aps with
  | nil =>
      intro mem t h hle
      exact mem_extends_refl _
  | cons a rest ih =>
      intro mem t h hle
      exact mem_extends_trans (process_ap_obs_extends h hle)
        (ih _ now (process_ap_obs_le h hle) (le_refl now))

/-- A sequence of ingest batches, each a timestamp with its observation
list, applied in order. -/
def run_batches (mem : Memory) : List (Int × List APObs) → Memory
  | [] => mem
  | (t, aps) :: rest => run_batches (on_unfiltered_ap_list mem t aps).1 rest

/-- The list is nondecreasing and bounded below by t. -/
def nondecreasing_from (t : Int) : List Int → Bool
  | [] => true
  | a :: rest => decide (t ≤ a) && nondecreasing_from a rest

/-- The list is nondecreasing. -/
def nondecreasing : List Int → Bool
  | [] => true
  | a :: rest => nondecreasing_from a rest

theorem run_batches_append (bs1 bs2 : List (Int × List APObs)) :
    ∀ mem, run_batches mem (bs1 ++ bs2) = run_batches (run_batches mem bs1) bs2 := by
  induction bs1 with
  | nil =>
      intro mem
      rfl
  | cons b rest ih =>
      obtain ⟨t, aps⟩ := b
      intro mem
      simp only [List.cons_append, run_batches]
      exact ih _

theorem nondecreasing_from_headD {l : List Int} (h : nondecreasing l = true) (d : Int) :
    nondecreasing_from (l.headD d) l = true := by
  cases l with
  | nil => rfl
  | cons a rest =>
      simp only [List.headD_cons, nondecreasing_from, Bool.and_eq_true, decide_eq_true_eq]
      exact ⟨le_refl a, h⟩

theorem nondecreasing_from_append {l2 : List Int} : ∀ (l1 : List Int) (t : Int),
    nondecreasing_from t (l1 ++ l2) = true →
    nondecreasing_from t l1 = true ∧ nondecreasing_from (l1.getLastD t) l2 = true := by
  intro l1
  induction l1 with
  | nil =>
      intro t h
      exact ⟨rfl, h⟩
  | cons a rest ih =>
      intro t h
      rw [List.cons_append] at h
      simp only [nondecreasing_from, Bool.and_eq_true] at h
      obtain ⟨hta, h2⟩ := h
      obtain ⟨h3, h4⟩ := ih a h2
      refine ⟨?_, ?_⟩
      · simp only [nondecreasing_from, Bool.and_eq_true]
        exact ⟨hta, h3⟩
      · rw [List.getLastD_cons]
        exact h4

theorem run_batches_invariant (bs : List (Int × List APObs)) :
    ∀ (mem : Memory) (t : Int), mem_le mem t →
      nondecreasing_from t (bs.map Prod.fst) = true →
      mem_extends mem (run_batches mem bs) ∧
      mem_le (run_batches mem bs) ((bs.map Prod.fst).getLastD t) := by
  induction bs with
  | nil =>
      intro mem t h hchain
      exact ⟨mem_extends_refl _, h⟩
  | cons b rest ih =>
      obtain ⟨t1, aps⟩ := b
      intro mem t h hchain
      rw [List.map_cons] at hchain
      simp only [nondecreasing_from, Bool.and_eq_true, decide_eq_true_eq] at hchain
      obtain ⟨hle, hchain2⟩ := hchain
      have h1 : mem_le (on_unfiltered_ap_list mem t1 aps).1 t1 :=
        on_unfiltered_ap_list_le aps mem t h hle
      have hext1 : mem_extends mem (on_unfiltered_ap_list mem t1 aps).1 :=
        on_unfiltered_ap_list_extends aps mem t h hle
      obtain ⟨hext2, h2⟩ := ih _ t1 h1 hchain2
      refine ⟨mem_extends_trans hext1 hext2, ?_⟩
      rw [List.map_cons, List.getLastD_cons]
      exact h2

/-- Claim C8: over any sequence of ingest batches with non-decreasing
timestamps, starting from an empty store, every AP record (and client
record) present after a prefix survives to the end with unchanged
first_seen and non-decreased last_seen, and in the final store every
record satisfies first_seen <= last_seen. -/
theorem ingest_monotone (pre suf : List (Int × List APObs))
    (hchain : nondecreasing ((pre ++ suf).map Prod.fst) = true) :
    mem_extends (run_batches [] pre) (run_batches [] (pre ++ suf)) ∧
    (∀ k ap, dlookup (run_batches [] (pre ++ suf)) k = some ap →
      ap.first_seen ≤ ap.last_seen ∧
      ∀ c cr, dlookup ap.clients c = some cr → cr.first_seen ≤ cr.last_seen) := by
  have hmap : (pre ++ suf).map Prod.fst = pre.map Prod.fst ++ suf.map Prod.fst :=
    List.map_append _ _ _
  have h0 : nondecreasing_from (((pre ++ suf).map Prod.fst).headD 0)
      (pre.map Prod.fst ++ suf.map Prod.fst) = true := by
    rw [← hmap]
    exact nondecreasing_from_headD hchain 0
  obtain ⟨h1, h2⟩ := nondecreasing_from_append (pre.map Prod.fst)
    (((pre ++ suf).map Prod.fst).headD 0) h0
  have hinit : mem_le ([] : Memory) (((pre ++ suf).map Prod.fst).headD 0) := by
    intro k ap hk
    simp [dlookup] at hk
  obtain ⟨hextpre, hlepre⟩ := run_batches_invariant pre []
    (((pre ++ suf).map Prod.fst).headD 0) hinit h1
  obtain ⟨hextsuf, hlesuf⟩ := run_batches_invariant suf (run_batches [] pre) _ hlepre h2
  rw [run_batches_append]
  refine ⟨hextsuf, ?_⟩
  intro k ap hk
  obtain ⟨hf, hl, hcl⟩ := hlesuf k ap hk
  refine ⟨hf, ?_⟩
  intro c cr hc
  exact (hcl c cr hc).1

/-- Claim C8 witness: two concrete batches at times 5 and 9. -/
theorem ingest_monotone_witness :
    nondecreasing ((([(((5 : Int)), [obs_touch])] ++ [(((9 : Int)), [obs_touch])]).map Prod.fst)) = true ∧
    (mem_extends (run_batches [] [(((5 : Int)), [obs_touch])])
        (run_batches [] ([(((5 : Int)), [obs_touch])] ++ [(((9 : Int)), [obs_touch])])) ∧
      (∀ k ap, dlookup (run_batches [] ([(((5 : Int)), [obs_touch])] ++ [(((9 : Int)), [obs_touch])])) k = some ap →
        ap.first_seen ≤ ap.last_seen ∧
        ∀ c cr, dlookup ap.clients c = some cr → cr.first_seen ≤ cr.last_seen)) :=
  ⟨by decide, ingest_monotone [(((5 : Int)), [obs_touch])] [(((9 : Int)), [obs_touch])] (by decide)⟩

/-! ### Persistence (save and load) -/

/-- The plugin_metadata block of the persisted document.  Optional
fields model keys that may be absent and are read with dict get. -/
structure PluginMetadata where
  current_mode : Option String
  last_saved : Option Int
  version : Option String
  stationary_start : Option Int
deriving DecidableEq

/-- A parsed snapshot document: either the new shape carrying a
plugin_metadata key (an absent ap_data key reads as the empty dict, so
ap_data is modelled directly as a Memory), or the legacy shape where the
whole document is AP data. -/
inductive MemoryDoc where
  | withMeta (metadata : PluginMetadata) (ap_data : Memory)
  | legacy (ap_data : Memory)
deriving DecidableEq

/-- What _load_memory finds: no file, an unreadable or unparsable file,
or a parsed document. -/
inductive LoadInput where
  | noFile
  | parseFailure
  | parsed (d : MemoryDoc)
deriving DecidableEq

/-- The slice of plugin state touched by _load_memory. -/
structure LoadState where
  memory : Memory
  mode : String
  stationary_start : Option Int
deriving DecidableEq

/-- The state set up by the constructor before _load_memory runs:
memory = empty dict, mode = modes 0, stationary_start = None. -/
def init_load_state : LoadState :=
  { memory := [], mode := default_mode, stationary_start := none }

/-- _save_memory: the document written on a successful save. -/
def save_memory (mem : Memory) (mode : String) (stationary_start : Option Int)
    (now : Int) (version : String) : MemoryDoc :=
  .withMeta { current_mode := some mode, last_saved := some now, version := some version,
              stationary_start := stationary_start } mem

/-- _load_memory: transforms the prior state according to what is found
on disk.  No file leaves the state untouched; a parse failure resets
memory and mode; a metadata document restores memory, the saved mode
when it is one of the five known modes (else the default), and the
stationary-start; a legacy document is taken entirely as AP data with
the default mode. -/
def load_memory (prior : LoadState) : LoadInput → LoadState
  | .noFile => prior
  | .parseFailure => { prior with memory := [], mode := default_mode }
  | .parsed (.withMeta md ap) =>
      { memory := ap,
        mode := if modes.contains (md.current_mode.getD default_mode) then
                  md.current_mode.getD default_mode
                else default_mode,
        stationary_start := md.stationary_start }
  | .parsed (.legacy ap) => { prior with memory := ap, mode := default_mode }

/-- Claim C3: loading the document produced by save restores the same
memory (all keys and field values, clients included), the same top-level
mode (any of the five known values) and the same stationary-start; a
legacy document with no metadata block loads as AP data with the default
mode. -/
theorem save_load_roundtrip (mem : Memory) (mode : String) (stationary_start : Option Int)
    (now : Int) (version : String) (prior : LoadState) (h : mode ∈ modes) :
    load_memory prior (.parsed (save_memory mem mode stationary_start now version)) =
      { memory := mem, mode := mode, stationary_start := stationary_start } ∧
    (∀ ap prior2, load_memory prior2 (.parsed (.legacy ap)) =
      { prior2 with memory := ap, mode := default_mode }) := by
  constructor
  · rw [save_memory, load_memory]
    have hc : modes.contains ((some mode).getD default_mode) = true := by
      rw [Option.getD_some]
      exact List.elem_eq_true_of_mem h
    rw [if_pos hc, Option.getD_some]
  · intro ap prior2
    rfl

/-- Claim C3 witness: a concrete store with one AP, mode auto, a
stationary-start, round trips exactly; a concrete legacy document loads
as AP data with the default mode. -/
theorem save_load_roundtrip_witness :
    ("auto" ∈ modes) ∧
    (load_memory init_load_state
        (.parsed (save_memory [("aa", sample_ap)] "auto" (some 7) 99 "x88.0.7")) =
      { memory := [("aa", sample_ap)], mode := "auto", stationary_start := some 7 } ∧
    (∀ ap prior2, load_memory prior2 (.parsed (.legacy ap)) =
      { prior2 with memory := ap, mode := default_mode })) :=
  ⟨by decide, save_load_roundtrip [("aa", sample_ap)] "auto" (some 7) 99 "x88.0.7"
    init_load_state (by decide)⟩

/-- Claim C9: load never propagates an error and the resulting mode is
always one of the five enumerated values: with no snapshot the initial
empty memory and default mode stand; an unknown persisted mode string is
replaced by the default while the memory is still loaded and the
stationary-start still restored; a parse failure yields empty memory and
the default mode. -/
theorem load_mode_safety :
    (load_memory init_load_state .noFile = init_load_state ∧
      init_load_state.memory = [] ∧ init_load_state.mode = default_mode) ∧
    (∀ input, (load_memory init_load_state input).mode ∈ modes) ∧
    (∀ md ap m, md.current_mode = some m → m ∉ modes →
      load_memory init_load_state (.parsed (.withMeta md ap)) =
        { memory := ap, mode := default_mode, stationary_start := md.stationary_start }) ∧
    load_memory init_load_state .parseFailure =
      { memory := [], mode := default_mode, stationary_start := none } := by
  refine ⟨⟨rfl, rfl, rfl⟩, ?_, ?_, rfl⟩
  · intro input
    cases input with
    | noFile => decide
    | parseFailure => decide
    | parsed d =>
        cases d with
        | withMeta md ap =>
            rw [load_memory]
            by_cases hc : modes.contains (md.current_mode.getD default_mode) = true
            · rw [if_pos hc]
              exact List.mem_of_elem_eq_true hc
            · rw [if_neg hc]
              show default_mode ∈ modes
              decide
        | legacy ap =>
            show default_mode ∈ modes
            decide
  · intro md ap m hm hnot
    rw [load_memory, hm, Option.getD_some]
    have hc : modes.contains m = false := by
      by_contra hcc
      rw [Bool.not_eq_false] at hcc
      exact hnot (List.mem_of_elem_eq_true hcc)
    rw [hc]
    rfl

/-- Claim C9 witness: a document carrying the unknown mode string bogus
loads its AP data with the default mode while restoring the
stationary-start. -/
theorem load_mode_safety_witness :
    (({ current_mode := some "bogus", last_saved := none, version := none,
        stationary_start := some 42 } : PluginMetadata).current_mode = some "bogus" ∧
      "bogus" ∉ modes) ∧
    load_memory init_load_state (.parsed (.withMeta
        { current_mode := some "bogus", last_saved := none, version := none,
          stationary_start := some 42 } [("aa", sample_ap)])) =
      { memory := [("aa", sample_ap)], mode := default_mode, stationary_start := some 42 } :=
  ⟨⟨rfl, by decide⟩, load_mode_safety.2.2.1
    { current_mode := some "bogus", last_saved := none, version := none,
      stationary_start := some 42 } [("aa", sample_ap)] "bogus" rfl (by decide)⟩

end SATpwn
